import Mathlib

set_option maxHeartbeats 1000000

/-!
Shallow embedding of the gitlab-copy repository (src/gitlab.py, src/main.py).

Modelling conventions, used uniformly below:
* GitLab entity ids are natural numbers; a JSON `null` id (e.g. `parent_id: null`)
  is encoded as `0`.  This is observationally faithful: the Python code only ever
  tests these fields for truthiness (`if not group.parent_id`, where both `None`
  and `0` are falsy) and compares them with `==` against positive ids.
* Python exceptions (AttributeError, KeyError, IndexError, ValueError,
  RecursionError) are all modelled as `Except.error ()`.
* Unbounded Python recursion is modelled with an explicit fuel argument; running
  out of fuel corresponds to Python's RecursionError.
* The HTTP layer is modelled as an oracle function from request data to the
  decoded response (`none` = non-success status code, `some` = success body).
* The thread-pool fan-out helpers (`upload_all_projects` etc.) run one
  independent task per project; they are modelled by mapping the per-project
  operation over the project list.
-/

namespace GitlabCopy

/-- `Visibility` enum of src/gitlab.py.  `priv`/`internalVis`/`pub` stand for the
Python members PRIVATE/INTERNAL/PUBLIC (`private` is a Lean keyword). -/
inductive Visibility where
  | priv
  | internalVis
  | pub
  deriving DecidableEq

/-- The `.value` attribute of the `Visibility` enum. -/
def Visibility.value : Visibility → String
  | .priv => "private"
  | .internalVis => "internal"
  | .pub => "public"

/-- `Namespace` dataclass (BaseResource fields plus kind, full_path, parent_id). -/
structure Namespace where
  id : Nat
  name : String
  web_url : String
  path : String
  kind : String
  full_path : String
  parent_id : Nat
  deriving DecidableEq

/-- `Project` dataclass.  The field `ns` embeds the Python field `namespace`
(a Lean keyword): `Optional[Namespace] = None`.  `remote` is `Optional[str] = ''`,
modelled as a `String` whose empty value is the falsy unassigned state. -/
structure Project where
  id : Nat
  name : String
  web_url : String
  path : String
  description : String
  ns : Option Namespace
  remote : String
  deriving DecidableEq

/-- `Group` dataclass. -/
structure Group where
  id : Nat
  name : String
  web_url : String
  path : String
  full_path : String
  description : String
  parent_id : Nat
  visibility : Visibility
  deriving DecidableEq

/-! Forest node: the Python `GroupNode` dataclass holds a `Group` and a list of
children, each child being a `GroupNode` or a `Project`.  The runtime union is
embedded as a two-constructor tree; `TreeList` is an inlined list so that all
functions over the forest are structurally recursive. -/
mutual
inductive Tree where
  | node : Group → TreeList → Tree
  | leaf : Project → Tree
inductive TreeList where
  | nil : TreeList
  | cons : Tree → TreeList → TreeList
end

def TreeList.ofList : List Tree → TreeList
  | [] => .nil
  | t :: ts => .cons t (TreeList.ofList ts)

/-- The entity sitting at the top of a forest node: the `Group` of a `GroupNode`,
or the `Project` of a leaf. -/
def treeLabel : Tree → Group ⊕ Project
  | .node g _ => Sum.inl g
  | .leaf p => Sum.inr p

/-! Parent/child relationships recorded in a tree: one pair
`(parent group, child entity)` for every child edge, recursively. -/
mutual
def treeEdges : Tree → List (Group × (Group ⊕ Project))
  | .node g cs => edgesUnder g cs
  | .leaf _ => []
def edgesUnder : Group → TreeList → List (Group × (Group ⊕ Project))
  | _, .nil => []
  | g, .cons t ts => ((g, treeLabel t) :: treeEdges t) ++ edgesUnder g ts
end

/-- Multiset-style root description of a forest. -/
def forest_labels (F : List Tree) : List (Group ⊕ Project) := F.map treeLabel

/-- All parent/child relationships of a forest. -/
def forest_edges (F : List Tree) : List (Group × (Group ⊕ Project)) :=
  (F.map treeEdges).flatten

/-- Sequential effectful map in the `Except` monad, mirroring a Python `for`
loop that may raise: the first raised exception propagates. -/
def mapME {α β : Type} (f : α → Except Unit β) : List α → Except Unit (List β)
  | [] => .ok []
  | a :: as => do
    let b ← f a
    let bs ← mapME f as
    pure (b :: bs)

/-- Embeds `list(filter(lambda prj: prj.namespace.id == k, projects))`:
the predicate reads `prj.namespace.id`, so a project whose `namespace` is `None`
raises AttributeError at the first evaluation of the predicate on it. -/
def projectsWithNsId (k : Nat) : List Project → Except Unit (List Project)
  | [] => .ok []
  | p :: ps =>
    match p.ns with
    | none => .error ()
    | some n => do
      let rest ← projectsWithNsId k ps
      pure (if n.id = k then p :: rest else rest)

/-- First loop of `_construct_trees_roots`: partition the groups into roots
(falsy `parent_id`) and remaining groups, preserving input order. -/
def groupRootsPass : List Group → List (Group ⊕ Project) × List Group
  | [] => ([], [])
  | g :: gs =>
    let r := groupRootsPass gs
    if g.parent_id = 0 then (Sum.inl g :: r.1, r.2) else (r.1, g :: r.2)

/-- Second loop of `_construct_trees_roots`: partition the projects into roots
(falsy `namespace.id`) and remaining projects.  Reading `project.namespace.id`
raises AttributeError when `namespace` is `None`. -/
def projectRootsPass : List Project → Except Unit (List (Group ⊕ Project) × List Project)
  | [] => .ok ([], [])
  | p :: ps =>
    match p.ns with
    | none => .error ()
    | some n => do
      let r ← projectRootsPass ps
      pure (if n.id = 0 then (Sum.inr p :: r.1, r.2) else (r.1, p :: r.2))

/-- `GitLab._construct_trees_roots`: returns the root list (group roots in
input order, then project roots) together with the remaining groups and
projects still to be attached. -/
def construct_trees_roots (groups : List Group) (projects : List Project) :
    Except Unit (List (Group ⊕ Project) × List Group × List Project) := do
  let gpass := groupRootsPass groups
  let ppass ← projectRootsPass projects
  pure (gpass.1 ++ ppass.1, gpass.2, ppass.2)

/-- `GitLab._find_children`, rooted at group `g`: collect the remaining groups
whose `parent_id` equals `g.id` (recursing into each before moving on), then
append the remaining projects whose `namespace.id` equals `g.id` as leaves.
The fuel argument bounds the Python recursion depth (fuel 0 = RecursionError). -/
def find_children (groups : List Group) (projects : List Project) :
    Nat → Group → Except Unit Tree
  | 0 => fun _ => .error ()
  | fuel + 1 => fun g => do
    let group_children := groups.filter (fun grp => grp.parent_id = g.id)
    let child_nodes ← mapME (find_children groups projects fuel) group_children
    let prj_children ← projectsWithNsId g.id projects
    pure (Tree.node g (TreeList.ofList (child_nodes ++ prj_children.map Tree.leaf)))

/-- `refetch_data` applies `_find_children` to every root.  A root that is a
`Project` (appended as-is by `_construct_trees_roots`) has neither an `item`
nor a `children` attribute, so `_find_children` raises AttributeError on it. -/
def build_tree_root (groups : List Group) (projects : List Project) (fuel : Nat) :
    Group ⊕ Project → Except Unit Tree
  | Sum.inl g => find_children groups projects fuel g
  | Sum.inr _ => .error ()

/-- The tree-building part of `GitLab.refetch_data`: `_construct_trees_roots`
followed by `_find_children` on each root. -/
def build_forest (fuel : Nat) (groups : List Group) (projects : List Project) :
    Except Unit (List Tree) := do
  let r ← construct_trees_roots groups projects
  mapME (build_tree_root r.2.1 r.2.2 fuel) r.1

/-- Python's `s.replace(old, new)` for the single-character patterns used in
src/gitlab.py: substitute every occurrence of the character. -/
def pyReplaceChar (old new : Char) (s : String) : String :=
  String.mk (s.data.map (fun c => if c = old then new else c))

/-- Path derivation of `create_group`/`create_project` when no path is given:
`name.replace(' ', '-').replace('/', '-').replace('\\', '-')`. -/
def derive_path (s : String) : String :=
  pyReplaceChar '\\' '-' (pyReplaceChar '/' '-' (pyReplaceChar ' ' '-' s))

/-- The params dict sent by `create_group` (the access token aside). -/
structure GroupReq where
  name : String
  path : String
  description : String
  visibility : String
  parent_id : Option Int
  deriving DecidableEq

/-- Request construction of `create_group`: `params['path']` starts as the given
path, `parent_id` is included only when nonnegative, and an empty path is
replaced by the derived path. -/
def group_req (group_name description path : String) (visibility : Visibility)
    (parent_id : Int) : GroupReq :=
  { name := group_name
    path := if path = "" then derive_path group_name else path
    description := description
    visibility := visibility.value
    parent_id := if 0 ≤ parent_id then some parent_id else none }

/-- The params dict sent by `create_project` (the access token aside). -/
structure ProjectReq where
  name : String
  path : String
  description : String
  visibility : String
  namespace_id : Option Int
  deriving DecidableEq

/-- Request construction of `create_project`, mirroring `group_req` but with the
parent passed as `namespace_id`. -/
def project_req (prj_name description path : String) (visibility : Visibility)
    (parent_id : Int) : ProjectReq :=
  { name := prj_name
    path := if path = "" then derive_path prj_name else path
    description := description
    visibility := visibility.value
    namespace_id := if 0 ≤ parent_id then some parent_id else none }

/-- In-memory destination-instance state: the `self.groups` / `self.projects`
collections of a `GitLab` object. -/
structure Dst where
  groups : List Group
  projects : List Project
  deriving DecidableEq

/-- `GitLab.create_group` against a response oracle `api` (the decoded entity of
a 201 response, or `none` for any other status): on success the new group is
appended to `self.groups` and returned; on failure the state is unchanged and
`None` is returned. -/
def create_group (api : GroupReq → Option Group) (st : Dst) (group_name : String)
    (description : String) (path : String) (visibility : Visibility)
    (parent_id : Int) : Dst × Option Group :=
  match api (group_req group_name description path visibility parent_id) with
  | some g => ({ st with groups := st.groups ++ [g] }, some g)
  | none => (st, none)

/-- `GitLab.create_project`, same shape as `create_group`. -/
def create_project (api : ProjectReq → Option Project) (st : Dst) (prj_name : String)
    (description : String) (path : String) (visibility : Visibility)
    (parent_id : Int) : Dst × Option Project :=
  match api (project_req prj_name description path visibility parent_id) with
  | some p => ({ st with projects := st.projects ++ [p] }, some p)
  | none => (st, none)

/-! `GitLab.copy_tree` and its children loop.  For a `GroupNode`: create the
destination group (visibility INTERNAL); if creation fails, fall back to the
first already-known destination group with the same name; the resulting
`root_group` (possibly `None`) is used for the children.  In the loop, a
`Project` child reads `root_group.id`, which raises AttributeError when
`root_group` is `None`; a `GroupNode` child recurses with `root_group` as
parent (`None` turns into `parent_id = -1`, i.e. top level). -/
mutual
def copy_tree (gapi : GroupReq → Option Group) (papi : ProjectReq → Option Project) :
    Tree → Option Group → Dst → Except Unit Dst
  | .leaf _, _, st => .ok st
  | .node g cs, parent_group, st =>
    let parent_id : Int := match parent_group with
      | some pg => (pg.id : Int)
      | none => -1
    let cr := create_group gapi st g.name g.description g.path Visibility.internalVis parent_id
    let root_group : Option Group :=
      match cr.2 with
      | some rg => some rg
      | none =>
        match cr.1.groups.filter (fun grp => grp.name = g.name) with
        | rg :: _ => some rg
        | [] => none
    copy_children gapi papi cs root_group cr.1
def copy_children (gapi : GroupReq → Option Group) (papi : ProjectReq → Option Project) :
    TreeList → Option Group → Dst → Except Unit Dst
  | .nil, _, st => .ok st
  | .cons c cs, root_group, st =>
    match c with
    | .leaf p =>
      match root_group with
      | none => .error ()
      | some rg =>
        let cr := create_project papi st p.name p.description p.path
          Visibility.internalVis (rg.id : Int)
        copy_children gapi papi cs root_group cr.1
    | .node g' cs' => do
      let st' ← copy_tree gapi papi (.node g' cs') root_group st
      copy_children gapi papi cs root_group st'
end

/-- `per_page = 100` of `fetch_groups` / `fetch_projects`. -/
def per_page : Nat := 100

/-- Shared pagination loop of `fetch_groups` and `fetch_projects`:
request a page at the current cursor (`none` response = non-200: return `[]`
for this continuation), keep the items, and when the page is full recurse with
the id of its last element as the next `id_after` cursor.  Returns the merged
items together with the list of cursors of every request issued.  The fuel
argument bounds the Python recursion depth. -/
def fetchPagedAux {α : Type} (idOf : α → Nat) (api : Nat → Option (List α)) :
    Nat → Nat → List α × List Nat
  | 0 => fun _ => ([], [])
  | fuel + 1 => fun next_id =>
    match api next_id with
    | none => ([], [next_id])
    | some data =>
      if per_page ≤ data.length then
        let r := fetchPagedAux idOf api fuel ((data.getLast?.map idOf).getD 0)
        (data ++ r.1, next_id :: r.2)
      else (data, [next_id])

/-- `GitLab.fetch_groups` (items arrive already deserialized; the raw record id
used for the cursor equals the deserialized `Group.id`). -/
def fetch_groups (api : Nat → Option (List Group)) (fuel : Nat) (next_id : Nat) :
    List Group × List Nat :=
  fetchPagedAux Group.id api fuel next_id

/-- `GitLab.fetch_projects`. -/
def fetch_projects (api : Nat → Option (List Project)) (fuel : Nat) (next_id : Nat) :
    List Project × List Nat :=
  fetchPagedAux Project.id api fuel next_id

/-- Honest paginated endpoint of spec section 6: `items` is the instance's full
entity list sorted ascending by id; a request with cursor `c` (`id_after=c`,
with `c = 0` for the cursor-less first request) returns the first `per_page`
items whose id is strictly greater than `c`, always with a success status. -/
def server_page {α : Type} (idOf : α → Nat) (items : List α) (cursor : Nat) :
    Option (List α) :=
  some ((items.filter (fun x => cursor < idOf x)).take per_page)

/-- Python `s.split(sep)` for a three-character separator `[a, b, c]`
(the only separator used in src/gitlab.py is `'://'`): split at every
non-overlapping occurrence, keeping empty parts. -/
def pySplit3 (a b c : Char) : List Char → List (List Char)
  | x :: y :: z :: rest =>
    if x = a ∧ y = b ∧ z = c then [] :: pySplit3 a b c rest
    else
      match pySplit3 a b c (y :: z :: rest) with
      | [] => [[x]]
      | p :: ps => (x :: p) :: ps
  | s => [s]

/-- Python `url.split('://')`. -/
def pySplitScheme (s : String) : List String :=
  (pySplit3 ':' '/' '/' s.data).map String.mk

/-- Directory used by `upload_project` for a project's mirrored bare repository:
`f'{self.temp_path}/{project.path}.git'`. -/
def upload_repo_dir (temp_path : String) (p : Project) : String :=
  temp_path ++ "/" ++ p.path ++ ".git"

/-- Directory used by `_relink_project` for the same repository:
`f'{self.temp_path}/{project.name}.git'`. -/
def relink_repo_dir (temp_path : String) (p : Project) : String :=
  temp_path ++ "/" ++ p.name ++ ".git"

/-- External git invocations issued by `upload_project`. -/
inductive GitCmd where
  | remoteAdd (al url : String)
  | pushMirror (al : String)
  deriving DecidableEq

/-- The remote alias an external git invocation operates on. -/
def GitCmd.aliasOf : GitCmd → String
  | .remoteAdd a _ => a
  | .pushMirror a => a

/-- `GitLab.upload_project`: skip when no username or no local clone directory;
otherwise assign `project.remote = str(uuid.uuid4())` if it is still falsy
(`fresh` models the generated identifier), then run `git remote add` and
`git push --mirror` with that alias.  Unpacking `web_url.split('://')` into two
names raises ValueError unless the split has exactly two parts.  Returns the
(possibly updated) project object and the issued git commands. -/
def upload_project (username access_token temp_path : String)
    (folder_exists : String → Bool) (fresh : String) (p : Project) :
    Project × Except Unit (List GitCmd) :=
  if username = "" then (p, .ok [])
  else if folder_exists (upload_repo_dir temp_path p) = false then (p, .ok [])
  else
    let p1 := if p.remote = "" then { p with remote := fresh } else p
    match pySplitScheme p1.web_url with
    | [protocol, rest] =>
      (p1, .ok [GitCmd.remoteAdd p1.remote
          (protocol ++ "://" ++ username ++ ":" ++ access_token ++ "@" ++ rest ++ ".git"),
        GitCmd.pushMirror p1.remote])
    | _ => (p1, .error ())

/-- `GitLab.upload_all_projects`: one independent `upload_project` task per
project; `freshs i` is the uuid generated for the i-th project's task. -/
def upload_all (username access_token temp_path : String)
    (folder_exists : String → Bool) (freshs : Nat → String) (ps : List Project) :
    List (Project × Except Unit (List GitCmd)) :=
  ps.enum.map (fun pr =>
    upload_project username access_token temp_path folder_exists (freshs pr.1) pr.2)

/-- Python `url.split('://')[1]`: the part after the first `://`; IndexError
when the separator does not occur. -/
def afterScheme (s : String) : Except Unit String :=
  match pySplitScheme s with
  | _ :: b :: _ => .ok b
  | _ => .error ()

/-- Contents written by `_create_links_replacement_file` to
`<temp_path>/replace.txt`. -/
def links_replacement_content (src_url dst_url : String) : Except Unit String := do
  let s ← afterScheme src_url
  let d ← afterScheme dst_url
  pure (src_url ++ "==>" ++ dst_url ++ "\r\n" ++ "@" ++ s ++ "==>" ++ "@" ++ d ++ "\r\n")

/-- Destination URL computed by `relink_references`: the instance URL, re-rooted
under the destination group's full path when a group is given. -/
def relink_dst_url (url : String) (dst_group : Option Group) : String :=
  match dst_group with
  | some g => url ++ "/" ++ g.full_path
  | none => url

/-- The host part of a URL as the claim reads it ("`@src-host==>@dst-host`"):
the authority component after the scheme, before any path segment. -/
def host_of (u : String) : String :=
  match pySplitScheme u with
  | _ :: b :: _ => String.mk (b.data.takeWhile (fun ch => ch ≠ '/'))
  | _ => u

/-- The two-line file the claim describes: a full-URL line then a host-only
line, each CRLF-terminated. -/
def links_file_claim (src_url dst_url : String) : String :=
  src_url ++ "==>" ++ dst_url ++ "\r\n" ++ "@" ++ host_of src_url ++ "==>" ++ "@" ++
    host_of dst_url ++ "\r\n"

/-- Decoded JSON values as far as src/gitlab.py consumes them. -/
inductive Jval where
  | num (n : Nat)
  | str (s : String)
  | null
  | obj (fields : List (String × Jval))

/-- Python `d[k]` on a decoded JSON object: KeyError when the key is absent. -/
def dget (d : List (String × Jval)) (k : String) : Except Unit Jval :=
  match d.lookup k with
  | some v => .ok v
  | none => .error ()

/-- Numeric field value; JSON `null` is encoded as 0 (see header). -/
def jnat : Jval → Nat
  | .num n => n
  | _ => 0

/-- String field value (API fields consumed as strings are strings). -/
def jstr : Jval → String
  | .str s => s
  | _ => ""

/-- `Visibility(value)`: ValueError (a decode error) on any unknown value. -/
def visibility_of : Jval → Except Unit Visibility
  | .str "private" => .ok .priv
  | .str "internal" => .ok .internalVis
  | .str "public" => .ok .pub
  | _ => .error ()

/-- `GitLab._deserialize_group`; field accesses in the source's evaluation
order, each raising KeyError when missing. -/
def deserialize_group (d : List (String × Jval)) : Except Unit Group := do
  let i ← dget d "id"
  let n ← dget d "name"
  let desc ← dget d "description"
  let pid ← dget d "parent_id"
  let visv ← dget d "visibility"
  let vis ← visibility_of visv
  let wu ← dget d "web_url"
  let pa ← dget d "path"
  let fp ← dget d "full_path"
  pure { id := jnat i, name := jstr n, description := jstr desc, parent_id := jnat pid,
         visibility := vis, web_url := jstr wu, path := jstr pa, full_path := jstr fp }

/-- `GitLab._deserialize_namespace`. -/
def deserialize_namespace (d : List (String × Jval)) : Except Unit Namespace := do
  let i ← dget d "id"
  let n ← dget d "name"
  let k ← dget d "kind"
  let fp ← dget d "full_path"
  let pid ← dget d "parent_id"
  let wu ← dget d "web_url"
  let pa ← dget d "path"
  pure { id := jnat i, name := jstr n, kind := jstr k, full_path := jstr fp,
         parent_id := jnat pid, web_url := jstr wu, path := jstr pa }

/-- `GitLab._deserialize_project`: the namespace is deserialized only when the
`namespace` key is present (`if 'namespace' in proj_data else None`); a present
non-object value is subscripted and raises. -/
def deserialize_project (d : List (String × Jval)) : Except Unit Project := do
  let i ← dget d "id"
  let n ← dget d "name"
  let desc ← dget d "description"
  let wu ← dget d "web_url"
  let pa ← dget d "path"
  let nsv ← match d.lookup "namespace" with
    | some (.obj nd) => (deserialize_namespace nd).map some
    | some _ => .error ()
    | none => .ok (none : Option Namespace)
  pure { id := jnat i, name := jstr n, description := jstr desc, web_url := jstr wu,
         path := jstr pa, ns := nsv, remote := "" }

/-- Required keys of a raw group record. -/
def requiredGroupKeys : List String :=
  ["id", "name", "description", "parent_id", "visibility", "web_url", "path", "full_path"]

/-- Keys of a raw project record whose absence raises (all but `namespace`). -/
def requiredProjectKeys : List String :=
  ["id", "name", "description", "web_url", "path"]

/-! Concrete sample entities used by the theorems below. -/

/-- A namespace with the given id and empty string fields. -/
def sampleNs (i : Nat) : Namespace :=
  { id := i, name := "", web_url := "", path := "", kind := "", full_path := "",
    parent_id := 0 }

/-- A group with the given id and parent id and empty string fields. -/
def mkGroup (i pid : Nat) : Group :=
  { id := i, name := "", web_url := "", path := "", full_path := "", description := "",
    parent_id := pid, visibility := .priv }

/-- A project with the given id owned by the namespace with id `nsid`. -/
def mkProject (i nsid : Nat) : Project :=
  { id := i, name := "", web_url := "", path := "", description := "",
    ns := some (sampleNs nsid), remote := "" }

/-- The group/project lists of claim C1's example: groups 1 (a root) and 2
(child of 1), project 10 owned by group 2, project 11 with a null/zero
namespace id (a personal project, hence a forest-root leaf). -/
def c1Groups : List Group := [mkGroup 1 0, mkGroup 2 1]

def c1Projects : List Project := [mkProject 10 2, mkProject 11 0]

/-- Full entity list (ids 1..150, sorted) of an instance used to exhibit
silent truncation. -/
def srvGroups : List Group := (List.range 150).map (fun i => mkGroup (i + 1) 0)

/-- An endpoint that answers the first page request honestly and every later
request with a non-success status. -/
def failSecondApi : Nat → Option (List Group) := fun c =>
  if c = 0 then server_page Group.id srvGroups c else none

/-- Source group named "X" whose subtree copy_tree replicates. -/
def cpGroup : Group := { mkGroup 1 0 with name := "X", path := "x" }

/-- A project child of the group named "X". -/
def cpProject : Project := { mkProject 10 1 with name := "P", path := "p" }

/-- The subtree: group "X" with one project child. -/
def cpTree : Tree := Tree.node cpGroup (.cons (Tree.leaf cpProject) .nil)

/-- A destination group named "X" that already exists (id 77). -/
def cpExisting : Group := { mkGroup 77 0 with name := "X", path := "x" }

/-- The decoded entity a successful project creation returns. -/
def cpCreatedProject : Project := mkProject 90 77

/-- Project-creation oracle that always succeeds. -/
def papiOk : ProjectReq → Option Project := fun _ => some cpCreatedProject

/-- Group-creation oracle that always fails (e.g. name already taken, or any
other non-201 response). -/
def gapiFail : GroupReq → Option Group := fun _ => none

/-- A project whose display name ("My Repo") differs from its path
("my-repo"), as GitLab permits. -/
def relinkDemoProject : Project :=
  { mkProject 3 1 with name := "My Repo", path := "my-repo", web_url := "http://h/my-repo" }

/-- Destination group used in the link-substitution example. -/
def c8Grp : Group := { mkGroup 5 0 with name := "g", path := "g", full_path := "g" }

/-- A raw project record with every required field but no `namespace` key. -/
def c7NoNsDict : List (String × Jval) :=
  [("id", .num 7), ("name", .str "p"), ("description", .str ""),
   ("web_url", .str "u"), ("path", .str "p")]

/-- The project `_deserialize_project` builds from `c7NoNsDict`. -/
def c7NoNsProject : Project :=
  { mkProject 7 0 with name := "p", web_url := "u", path := "p", ns := none }

/-- Relate two possibly-raising results: both raise, or both succeed with
`R`-related values. -/
def exceptRel {β γ : Type} (R : β → γ → Prop) : Except Unit β → Except Unit γ → Prop :=
  fun x y =>
    match x, y with
    | .error _, .error _ => True
    | .ok b, .ok c => R b c
    | _, _ => False

/-- Structural identity of two trees as the order-independence claim reads it:
the same root entity and the same parent/child relationships (as multisets —
sibling order may differ). -/
def treeSim (t t' : Tree) : Prop :=
  treeLabel t = treeLabel t' ∧ List.Perm (treeEdges t) (treeEdges t')

/-- Structural identity of two forests: the same multiset of roots and the
same multiset of parent/child relationships. -/
def forestSim (F F' : List Tree) : Prop :=
  List.Perm (forest_labels F) (forest_labels F') ∧ List.Perm (forest_edges F) (forest_edges F')

/-! ## Theorems -/

/-- Claim C1 (code bug): on the claim's own example the code does not produce
the stated forest at all.  `_construct_trees_roots` does partition the input
as the claim describes (group 1 and project 11 are roots, group 2 and project
10 remain), and `_find_children` on the group root builds exactly the subtree
`GroupNode(1,[GroupNode(2,[Project(10)])])`; but `refetch_data` then applies
`_find_children` to the root `Project(11)` as well, which reads `root.item` /
`root.children` on a `Project` and raises AttributeError, so the whole build
fails instead of yielding the claimed forest. -/
theorem c1_tree_build_crashes_on_project_root :
    build_forest 5 c1Groups c1Projects = .error ()
    ∧ construct_trees_roots c1Groups c1Projects =
        .ok ([Sum.inl (mkGroup 1 0), Sum.inr (mkProject 11 0)], [mkGroup 2 1], [mkProject 10 2])
    ∧ find_children [mkGroup 2 1] [mkProject 10 2] 5 (mkGroup 1 0) =
        .ok (Tree.node (mkGroup 1 0) (.cons (Tree.node (mkGroup 2 1)
          (.cons (Tree.leaf (mkProject 10 2)) .nil)) .nil)) :=
  ⟨rfl, rfl, rfl⟩

/-- Claim C3 (code bug): when the second page request of a 150-item instance
fails, `fetch_groups` returns the 100 items gathered so far with no error
signal — the very value an honest 100-item instance would produce — instead of
surfacing an incomplete-result error. -/
theorem c3_silent_truncation_on_failure :
    (fetch_groups failSecondApi 10 0).1 = srvGroups.take 100
    ∧ (fetch_groups failSecondApi 10 0).2 = [0, 100]
    ∧ srvGroups.length = 150
    ∧ fetch_groups failSecondApi 10 0 =
        fetch_groups (server_page Group.id (srvGroups.take 100)) 10 0 :=
  ⟨rfl, rfl, rfl, rfl⟩

/-- Claim C5 (code bug): when destination group creation fails, `copy_tree`
does fall back to an existing destination group of the same name and attaches
the children under it without error (first conjunct, the idempotent-rerun
case); but when no group of that name is known, the claimed silent
abandonment of the subtree does not happen: the children loop reads
`root_group.id` with `root_group = None` and raises AttributeError (second
conjunct). -/
theorem c5_copy_tree_fallback_and_crash :
    copy_tree gapiFail papiOk cpTree none ⟨[cpExisting], []⟩ =
      .ok ⟨[cpExisting], [cpCreatedProject]⟩
    ∧ copy_tree gapiFail papiOk cpTree none ⟨[], []⟩ = .error () :=
  ⟨rfl, rfl⟩

/-- Claim C9 (code bug): `upload_project` locates the mirrored bare repository
at `<temp>/<project-path>.git` as the spec's workspace layout states, but
`_relink_project` looks at `<temp>/<project-name>.git`; for any project whose
name differs from its path the two operations disagree. -/
theorem c9_upload_relink_paths_differ :
    upload_repo_dir "temp" relinkDemoProject = "temp/my-repo.git"
    ∧ relink_repo_dir "temp" relinkDemoProject = "temp/My Repo.git"
    ∧ upload_repo_dir "temp" relinkDemoProject ≠ relink_repo_dir "temp" relinkDemoProject :=
  ⟨rfl, rfl, by decide⟩

/-- The chained single-character replaces of `create_group`/`create_project`
equal one pass that maps space, slash and backslash to a hyphen. -/
theorem derive_path_eq_map (s : String) :
    derive_path s =
      String.mk (s.data.map (fun c => if c = ' ' ∨ c = '/' ∨ c = '\\' then '-' else c)) := by
  unfold derive_path pyReplaceChar
  simp only [List.map_map]
  congr 1
  apply List.map_congr_left
  intro c _
  by_cases h1 : c = ' '
  · simp [h1, Function.comp]
  · by_cases h2 : c = '/'
    · simp [h1, h2, Function.comp]
    · by_cases h3 : c = '\\'
      · simp [h1, h2, h3, Function.comp]
      · simp [h1, h2, h3, Function.comp]

/-- Claim C10 (confirmed): with an empty path argument, the path posted by
`create_group` / `create_project` is the name with every space, forward slash
and backslash replaced by a hyphen; a non-empty path argument is posted
unchanged. -/
theorem c10_path_derivation (n d p : String) (v : Visibility) (pid : Int) :
    ((group_req n d "" v pid).path =
        String.mk (n.data.map (fun c => if c = ' ' ∨ c = '/' ∨ c = '\\' then '-' else c))
      ∧ (project_req n d "" v pid).path =
        String.mk (n.data.map (fun c => if c = ' ' ∨ c = '/' ∨ c = '\\' then '-' else c)))
    ∧ (p ≠ "" →
      (group_req n d p v pid).path = p ∧ (project_req n d p v pid).path = p) := by
  refine ⟨⟨?_, ?_⟩, fun hp => ⟨?_, ?_⟩⟩
  · simp [group_req, derive_path_eq_map]
  · simp [project_req, derive_path_eq_map]
  · simp [group_req, hp]
  · simp [project_req, hp]

/-- Witness for `c10_path_derivation` at a concrete name and path. -/
theorem c10_path_derivation_witness :
    ("docs" : String) ≠ ""
    ∧ (group_req "My Group/v1" "" "" Visibility.priv (-1)).path = "My-Group-v1"
    ∧ (group_req "My Group/v1" "" "docs" Visibility.priv (-1)).path = "docs" := by
  refine ⟨by decide, ?_, ?_⟩
  · have h := (c10_path_derivation "My Group/v1" "" "docs" Visibility.priv (-1)).1.1
    simpa using h
  · exact ((c10_path_derivation "My Group/v1" "" "docs" Visibility.priv (-1)).2 (by decide)).1

/-- Claim C8, counterexample: with the destination URL re-rooted under a
destination group (full path "g"), the second line the code writes is
`@a.b==>@c.d/g` — the whole post-scheme remainder — not the host-only line
`@a.b==>@c.d` the claim describes. -/
theorem c8_second_line_not_host_only :
    links_replacement_content "http://a.b" (relink_dst_url "http://c.d" (some c8Grp)) =
      .ok "http://a.b==>http://c.d/g\r\n@a.b==>@c.d/g\r\n"
    ∧ links_file_claim "http://a.b" (relink_dst_url "http://c.d" (some c8Grp)) =
      "http://a.b==>http://c.d/g\r\n@a.b==>@c.d\r\n"
    ∧ ("http://a.b==>http://c.d/g\r\n@a.b==>@c.d/g\r\n" : String) ≠
      "http://a.b==>http://c.d/g\r\n@a.b==>@c.d\r\n" :=
  ⟨rfl, rfl, by decide⟩

/-- Claim C8 (amended): the file consists of exactly two CRLF-terminated lines
separated by `==>`: the full-URL line `src==>dst`, then `@X==>@Y` where `X`
and `Y` are everything after the first `://` of the source and destination URL
(the host plus any path suffix, not the host alone); both URLs must contain
`://` or the write raises.  The destination URL is the instance URL, re-rooted
under the destination group's full path when a group is given. -/
theorem c8_replacement_file_amended (src dst s d : String) (url : String) (g : Group)
    (hs : afterScheme src = .ok s) (hd : afterScheme dst = .ok d) :
    links_replacement_content src dst =
      .ok (src ++ "==>" ++ dst ++ "\r\n" ++ "@" ++ s ++ "==>" ++ "@" ++ d ++ "\r\n")
    ∧ relink_dst_url url (some g) = url ++ "/" ++ g.full_path
    ∧ relink_dst_url url none = url := by
  refine ⟨?_, rfl, rfl⟩
  simp [links_replacement_content, hs, hd, bind, Except.bind, pure, Except.pure]

/-- Witness for `c8_replacement_file_amended` at concrete URLs. -/
theorem c8_replacement_file_amended_witness :
    afterScheme "http://a.b" = .ok "a.b"
    ∧ afterScheme "http://c.d/g" = .ok "c.d/g"
    ∧ links_replacement_content "http://a.b" "http://c.d/g" =
        .ok ("http://a.b" ++ "==>" ++ "http://c.d/g" ++ "\r\n" ++ "@" ++ "a.b" ++ "==>" ++
          "@" ++ "c.d/g" ++ "\r\n") :=
  ⟨rfl, rfl,
    (c8_replacement_file_amended "http://a.b" "http://c.d/g" "a.b" "c.d/g" "u" c8Grp
      rfl rfl).1⟩

/-- Claim C7, counterexample: a raw project record carrying every other
required field but no `namespace` key deserializes successfully to a project
whose namespace is null — no decode error is raised and the missing field is
silently defaulted. -/
theorem c7_missing_namespace_not_error :
    deserialize_project c7NoNsDict = .ok c7NoNsProject ∧ c7NoNsProject.ns = none :=
  ⟨rfl, rfl⟩

/-- Claim C7 (amended): a raw record missing a required field is a decode
error — for every required group key, and for every required project key
except `namespace`: a project record without the `namespace` key deserializes
successfully with a null namespace, so a fetched Project may lack an owning
Namespace. -/
theorem c7_required_fields_amended :
    (∀ (dd : List (String × Jval)) k, k ∈ requiredGroupKeys → dd.lookup k = none →
      deserialize_group dd = .error ())
    ∧ (∀ (dd : List (String × Jval)) k, k ∈ requiredProjectKeys → dd.lookup k = none →
      deserialize_project dd = .error ())
    ∧ (∀ (dd : List (String × Jval)) p, deserialize_project dd = .ok p →
      dd.lookup "namespace" = none → p.ns = none) := by
  refine ⟨?_, ?_, ?_⟩
  · intro dd k hk hnone
    fin_cases hk
    all_goals (
      simp only [deserialize_group, dget, hnone, bind, Except.bind]
      repeat' split
      all_goals rfl)
  · intro dd k hk hnone
    fin_cases hk
    all_goals (
      simp only [deserialize_project, dget, hnone, bind, Except.bind]
      repeat' split
      all_goals rfl)
  · intro dd p hok hnone
    simp only [deserialize_project, dget, bind, Except.bind, hnone] at hok
    repeat' split at hok
    all_goals (first | (exact absurd hok (by simp)) | (cases hok; rfl))

/-- Witness for `c7_required_fields_amended`: the empty record is missing the
required key `id` and indeed fails to deserialize. -/
theorem c7_required_fields_amended_witness :
    ("id" ∈ requiredGroupKeys ∧ (List.lookup "id" ([] : List (String × Jval))) = none)
    ∧ deserialize_group [] = .error () :=
  ⟨⟨by decide, rfl⟩, c7_required_fields_amended.1 [] "id" (by decide) rfl⟩

/-- An `upload_project` call either returns the project object untouched or,
when its remote was still unassigned, the same object with just the remote set
to the generated identifier. -/
theorem upload_project_fst (u t tp : String) (fe : String → Bool) (f : String)
    (p : Project) :
    (upload_project u t tp fe f p).1 = p ∨
    (p.remote = "" ∧ (upload_project u t tp fe f p).1 = { p with remote := f }) := by
  unfold upload_project
  split
  · left; rfl
  · split
    · left; rfl
    · by_cases hr : p.remote = ""
      · right
        refine ⟨hr, ?_⟩
        simp only [hr, if_pos]
        split <;> rfl
      · left
        simp only [hr, if_neg]
        split <;> rfl

/-- The i-th task of `upload_all_projects` runs `upload_project` with the i-th
generated identifier on the i-th project. -/
theorem upload_all_task (u t tp : String) (fe : String → Bool) (freshs : Nat → String)
    (ps : List Project) (i : Nat) :
    (upload_all u t tp fe freshs ps)[i]? =
      (ps[i]?).map (fun p => upload_project u t tp fe (freshs i) p) := by
  simp only [upload_all, List.getElem?_map, List.getElem?_enum, Option.map_map]
  rfl

/-- When the upload proceeds (username and clone present) and the remote is
still unassigned, the generated identifier is assigned. -/
theorem upload_project_assigns (u t tp : String) (fe : String → Bool) (f : String)
    (p : Project) (hu : u ≠ "") (hfe : fe (upload_repo_dir tp p) = true)
    (hr : p.remote = "") :
    (upload_project u t tp fe f p).1.remote = f := by
  unfold upload_project
  rw [if_neg hu, if_neg (by simp [hfe]), if_pos hr]
  dsimp only
  split <;> rfl

/-- Every git command issued by `upload_project` (the add-remote/push pair)
operates on the project's resulting remote alias. -/
theorem upload_project_cmds_alias (u t tp : String) (fe : String → Bool) (f : String)
    (p : Project) (cmds : List GitCmd)
    (hok : (upload_project u t tp fe f p).2 = .ok cmds) :
    ∀ c ∈ cmds, GitCmd.aliasOf c = (upload_project u t tp fe f p).1.remote := by
  unfold upload_project at *
  dsimp only at hok ⊢
  split at hok
  · cases hok; simp
  · split at hok
    · cases hok; simp
    · split at hok
      · cases hok
        intro c hc
        simp at hc
        rcases hc with h | h <;> simp_all [GitCmd.aliasOf]
      · cases hok

/-- Claim C6 (confirmed): `upload_project` never modifies any project field
other than `remote` (first conjunct); a nonempty remote alias is reused
unchanged by every later call (second); the generated identifier is assigned
exactly on the first call for which the operation proceeds (third); both git
commands of the add-remote/push pair use the resulting alias (fourth); and in
one `upload_all_projects` session, two projects whose tasks generated distinct
fresh identifiers (the uuid4 model) receive distinct aliases whenever both
were assigned (fifth). -/
theorem c6_remote_alias_discipline :
    (∀ (u t tp f : String) (fe : String → Bool) (p : Project),
      (upload_project u t tp fe f p).1.id = p.id
        ∧ (upload_project u t tp fe f p).1.name = p.name
        ∧ (upload_project u t tp fe f p).1.web_url = p.web_url
        ∧ (upload_project u t tp fe f p).1.path = p.path
        ∧ (upload_project u t tp fe f p).1.description = p.description
        ∧ (upload_project u t tp fe f p).1.ns = p.ns)
    ∧ (∀ (u t tp f : String) (fe : String → Bool) (p : Project), p.remote ≠ "" →
        (upload_project u t tp fe f p).1.remote = p.remote)
    ∧ (∀ (u t tp f : String) (fe : String → Bool) (p : Project), u ≠ "" →
        fe (upload_repo_dir tp p) = true → p.remote = "" →
        (upload_project u t tp fe f p).1.remote = f)
    ∧ (∀ (u t tp f : String) (fe : String → Bool) (p : Project)
        (cmds : List GitCmd), (upload_project u t tp fe f p).2 = .ok cmds →
        ∀ c ∈ cmds, GitCmd.aliasOf c = (upload_project u t tp fe f p).1.remote)
    ∧ (∀ (u t tp : String) (fe : String → Bool) (freshs : Nat → String)
        (ps : List Project) (i j : Nat)
        (ri rj : Project × Except Unit (List GitCmd)), i ≠ j →
        (∀ q ∈ ps, q.remote = "") → freshs i ≠ freshs j →
        (upload_all u t tp fe freshs ps)[i]? = some ri →
        (upload_all u t tp fe freshs ps)[j]? = some rj →
        ri.1.remote ≠ "" → rj.1.remote ≠ "" → ri.1.remote ≠ rj.1.remote) := by
  refine ⟨?_, ?_, ?_, ?_, ?_⟩
  · intro u t tp f fe p
    rcases upload_project_fst u t tp fe f p with h | ⟨hr, h⟩ <;> rw [h] <;> simp
  · intro u t tp f fe p hne
    rcases upload_project_fst u t tp fe f p with h | ⟨hr, h⟩
    · rw [h]
    · exact absurd hr hne
  · intro u t tp f fe p hu hfe hr
    exact upload_project_assigns u t tp fe f p hu hfe hr
  · intro u t tp f fe p cmds hok
    exact upload_project_cmds_alias u t tp fe f p cmds hok
  · intro u t tp fe freshs ps i j ri rj hij hempty hne hi hj hri hrj
    rw [upload_all_task] at hi hj
    rcases hpi : ps[i]? with _ | pi
    · rw [hpi] at hi; cases hi
    rcases hpj : ps[j]? with _ | pj
    · rw [hpj] at hj; cases hj
    rw [hpi] at hi
    rw [hpj] at hj
    cases hi
    cases hj
    have hpim : pi ∈ ps := List.getElem?_mem hpi
    have hpjm : pj ∈ ps := List.getElem?_mem hpj
    have hri' : (upload_project u t tp fe (freshs i) pi).1.remote = freshs i := by
      rcases upload_project_fst u t tp fe (freshs i) pi with h | ⟨_, h⟩
      · rw [h] at hri
        exact absurd (hempty pi hpim) hri
      · rw [h]
    have hrj' : (upload_project u t tp fe (freshs j) pj).1.remote = freshs j := by
      rcases upload_project_fst u t tp fe (freshs j) pj with h | ⟨_, h⟩
      · rw [h] at hrj
        exact absurd (hempty pj hpjm) hrj
      · rw [h]
    rw [hri', hrj']
    exact hne

/-- Two projects with unassigned remotes, for the C6 session witness. -/
def c6pA : Project := { mkProject 1 1 with web_url := "http://h/a", path := "a" }

def c6pB : Project := { mkProject 2 1 with web_url := "http://h/b", path := "b" }

/-- Witness for `c6_remote_alias_discipline`: a concrete two-project session
with distinct generated identifiers yields distinct remote aliases. -/
theorem c6_remote_alias_discipline_witness :
    ((0 : Nat) ≠ 1 ∧ (∀ q ∈ [c6pA, c6pB], q.remote = "")
      ∧ (fun n => "u" ++ toString n) 0 ≠ (fun n => "u" ++ toString n) 1)
    ∧ ((upload_all "u" "t" "tmp" (fun _ => true) (fun n => "u" ++ toString n)
        [c6pA, c6pB])[0]?).map (fun r => r.1.remote) = some "u0"
    ∧ ((upload_all "u" "t" "tmp" (fun _ => true) (fun n => "u" ++ toString n)
        [c6pA, c6pB])[1]?).map (fun r => r.1.remote) = some "u1"
    ∧ ("u0" : String) ≠ "u1" := by
  refine ⟨⟨by decide, by decide, by decide⟩, rfl, rfl, ?_⟩
  exact (c6_remote_alias_discipline.2.2.2.2 "u" "t" "tmp" (fun _ => true)
    (fun n => "u" ++ toString n) [c6pA, c6pB] 0 1 _ _ (by decide) (by decide) (by decide)
    rfl rfl (by decide) (by decide))

/-- The fixed page size is positive. -/
theorem per_page_pos : 0 < per_page := by decide

/-- The last element of a list is a member of it. -/
theorem mem_of_getLastQ {α : Type} {l : List α} {a : α} (h : l.getLast? = some a) : a ∈ l := by
  rcases List.mem_getLast?_eq_getLast (l := l) (x := a) h with ⟨hne, rfl⟩
  exact List.getLast_mem hne

/-- In a list strictly ascending on `idOf`, the last element has the maximum
id. -/
theorem id_le_getLast {α : Type} (idOf : α → Nat) :
    ∀ (l : List α), List.Pairwise (fun a b => idOf a < idOf b) l →
      ∀ y, l.getLast? = some y → ∀ x ∈ l, idOf x ≤ idOf y := by
  intro l
  induction l with
  | nil => intro _ y hy; cases hy
  | cons a l ih =>
    intro hp y hy x hx
    rcases List.pairwise_cons.1 hp with ⟨ha, hl⟩
    cases l with
    | nil =>
      simp at hy hx
      subst hy
      subst hx
      exact Nat.le_refl _
    | cons b l' =>
      rw [List.getLast?_cons_cons] at hy
      rcases List.mem_cons.1 hx with rfl | hx'
      · exact Nat.le_of_lt (ha y (mem_of_getLastQ hy))
      · exact ih hl y hy x hx'

/-- Cursor advance: filtering the instance with the last id of the current
page as cursor yields exactly the items after that page. -/
theorem filter_after_page {α : Type} (idOf : α → Nat) (items : List α)
    (hs : List.Pairwise (fun a b => idOf a < idOf b) items) (c : Nat) (y : α)
    (hy : ((items.filter (fun x => c < idOf x)).take per_page).getLast? = some y) :
    items.filter (fun x => idOf y < idOf x) =
      (items.filter (fun x => c < idOf x)).drop per_page := by
  set tail := items.filter (fun x => c < idOf x) with htail
  have htp : List.Pairwise (fun a b => idOf a < idOf b) tail :=
    hs.sublist (List.filter_sublist items)
  have hymem_take : y ∈ tail.take per_page := mem_of_getLastQ hy
  have hymem : y ∈ tail := List.mem_of_mem_take hymem_take
  have hcy : c < idOf y := by
    have h2 := (List.mem_filter.1 (htail ▸ hymem)).2
    simpa using h2
  have h3 : items.filter (fun x => idOf y < idOf x) =
      tail.filter (fun x => idOf y < idOf x) := by
    rw [htail, List.filter_filter]
    apply List.filter_congr
    intro a _
    by_cases hlt : idOf y < idOf a
    · simp [hlt, Nat.lt_trans hcy hlt]
    · simp [hlt]
  have htake_pw : List.Pairwise (fun a b => idOf a < idOf b) (tail.take per_page) :=
    htp.sublist (List.take_sublist _ _)
  have h5 : (tail.take per_page).filter (fun x => idOf y < idOf x) = [] := by
    rw [List.filter_eq_nil_iff]
    intro a ha
    have hle := id_le_getLast idOf (tail.take per_page) htake_pw y hy a ha
    simp
    omega
  have h6 : (tail.drop per_page).filter (fun x => idOf y < idOf x) = tail.drop per_page := by
    rw [List.filter_eq_self]
    intro a ha
    have hpw : List.Pairwise (fun a b => idOf a < idOf b)
        (tail.take per_page ++ tail.drop per_page) := by
      rw [List.take_append_drop]
      exact htp
    rcases List.pairwise_append.1 hpw with ⟨_, _, hcross⟩
    have hlt := hcross y hymem_take a ha
    simpa using hlt
  calc items.filter (fun x => idOf y < idOf x)
      = tail.filter (fun x => idOf y < idOf x) := h3
    _ = (tail.take per_page ++ tail.drop per_page).filter (fun x => idOf y < idOf x) := by
        rw [List.take_append_drop]
    _ = tail.drop per_page := by
        rw [List.filter_append, h5, h6, List.nil_append]


/-- Behaviour of the pagination loop against the honest endpoint, for any
cursor: it returns every item past the cursor, issues length/per_page + 1
requests, starts at the given cursor, and each later request's cursor is the
last (maximum) id of the previous page. -/
theorem fetchPagedAux_run {α : Type} (idOf : α → Nat) (items : List α)
    (hs : List.Pairwise (fun a b => idOf a < idOf b) items) :
    ∀ (fuel : Nat) (c : Nat),
      (items.filter (fun x => c < idOf x)).length / per_page < fuel →
      (fetchPagedAux idOf (server_page idOf items) fuel c).1 =
          items.filter (fun x => c < idOf x)
      ∧ (fetchPagedAux idOf (server_page idOf items) fuel c).2.length =
          (items.filter (fun x => c < idOf x)).length / per_page + 1
      ∧ (fetchPagedAux idOf (server_page idOf items) fuel c).2.head? = some c
      ∧ List.Chain' (fun c1 c2 => ∃ page, server_page idOf items c1 = some page
          ∧ page.getLast?.map idOf = some c2 ∧ ∀ x ∈ page, idOf x ≤ c2)
        (fetchPagedAux idOf (server_page idOf items) fuel c).2 := by
  intro fuel
  induction fuel with
  | zero => intro c h; exact absurd h (Nat.not_lt_zero _)
  | succ fuel ih =>
    intro c hfuel
    have hpp : per_page = 100 := rfl
    by_cases hble : per_page ≤ (items.filter (fun x => c < idOf x)).length
    · have hcond : per_page ≤ ((items.filter (fun x => c < idOf x)).take per_page).length := by
        rw [List.length_take, hpp]
        rw [hpp] at hble
        omega
      have hdne : (items.filter (fun x => c < idOf x)).take per_page ≠ [] := by
        intro hnil
        have hlen := congrArg List.length hnil
        rw [List.length_take, hpp] at hlen
        rw [hpp] at hble
        simp only [List.length_nil] at hlen
        omega
      rcases hlast : ((items.filter (fun x => c < idOf x)).take per_page).getLast? with _ | y
      · rw [List.getLast?_eq_none_iff] at hlast
        exact absurd hlast hdne
      have hdropfilter := filter_after_page idOf items hs c y hlast
      have hdiv : (items.filter (fun x => c < idOf x)).length / per_page =
          ((items.filter (fun x => c < idOf x)).length - per_page) / per_page + 1 :=
        Nat.div_eq_sub_div per_page_pos hble
      have hih := ih (idOf y) (by
        rw [hdropfilter, List.length_drop]
        rw [hpp] at hfuel hble hdiv ⊢
        omega)
      rw [hdropfilter] at hih
      have hstep : fetchPagedAux idOf (server_page idOf items) (fuel + 1) c =
          (((items.filter (fun x => c < idOf x)).take per_page) ++
            (fetchPagedAux idOf (server_page idOf items) fuel (idOf y)).1,
           c :: (fetchPagedAux idOf (server_page idOf items) fuel (idOf y)).2) := by
        conv_lhs => rw [fetchPagedAux]
        show (match server_page idOf items c with
          | none => ([], [c])
          | some data =>
            if per_page ≤ data.length then
              let r := fetchPagedAux idOf (server_page idOf items) fuel
                ((data.getLast?.map idOf).getD 0)
              (data ++ r.1, c :: r.2)
            else (data, [c])) = _
        rw [show server_page idOf items c =
          some ((items.filter (fun x => c < idOf x)).take per_page) from rfl]
        simp only [if_pos hcond, hlast]
        rfl
      rw [hstep]
      refine ⟨?_, ?_, rfl, ?_⟩
      · rw [hih.1, List.take_append_drop]
      · simp only [List.length_cons, hih.2.1, List.length_drop]
        rw [hpp] at hdiv ⊢
        rw [hpp] at hble
        omega
      · rw [List.chain'_cons']
        refine ⟨?_, hih.2.2.2⟩
        intro b hb
        rw [hih.2.2.1] at hb
        simp at hb
        subst hb
        refine ⟨(items.filter (fun x => c < idOf x)).take per_page, rfl, ?_, ?_⟩
        · rw [hlast]
          rfl
        · exact id_le_getLast idOf _ ((hs.sublist (List.filter_sublist items)).sublist
            (List.take_sublist _ _)) y hlast
    · have hlt : (items.filter (fun x => c < idOf x)).length < per_page := by omega
      have htake : (items.filter (fun x => c < idOf x)).take per_page =
          items.filter (fun x => c < idOf x) :=
        List.take_of_length_le (Nat.le_of_lt hlt)
      have hstep : fetchPagedAux idOf (server_page idOf items) (fuel + 1) c =
          (items.filter (fun x => c < idOf x), [c]) := by
        conv_lhs => rw [fetchPagedAux]
        show (match server_page idOf items c with
          | none => ([], [c])
          | some data =>
            if per_page ≤ data.length then
              let r := fetchPagedAux idOf (server_page idOf items) fuel
                ((data.getLast?.map idOf).getD 0)
              (data ++ r.1, c :: r.2)
            else (data, [c])) = _
        rw [show server_page idOf items c =
          some ((items.filter (fun x => c < idOf x)).take per_page) from rfl]
        have hcondneg : ¬ per_page ≤
            ((items.filter (fun x => c < idOf x)).take per_page).length := by
          rw [List.length_take, hpp]
          rw [hpp] at hble
          omega
        simp only [if_neg hcondneg]
        rw [htake]
      rw [hstep]
      refine ⟨rfl, ?_, rfl, List.chain'_singleton c⟩
      simp only [List.length_singleton]
      rw [Nat.div_eq_of_lt hlt]


/-- Claim C2 (confirmed): against an honest paginated endpoint holding the
N items of the instance sorted ascending by positive ids, the fetch loop of
`fetch_groups`/`fetch_projects` (both are `fetchPagedAux` at page size 100)
returns all N items; it issues ceil(N/P) page requests when P does not divide
N and N/P + 1 when it does; the first request carries no cursor (cursor 0);
and each later request's cursor equals the last — hence maximum — id of the
previous page.  Termination comes solely from the one short page these counts
include. -/
theorem c2_pagination_complete {α : Type} (idOf : α → Nat) (items : List α)
    (hs : List.Chain' (· < ·) (0 :: items.map idOf)) :
    (fetchPagedAux idOf (server_page idOf items) (items.length + 1) 0).1 = items
    ∧ (fetchPagedAux idOf (server_page idOf items) (items.length + 1) 0).2.length =
        (if per_page ∣ items.length then items.length / per_page + 1
          else (items.length + per_page - 1) / per_page)
    ∧ (fetchPagedAux idOf (server_page idOf items) (items.length + 1) 0).2.head? = some 0
    ∧ List.Chain' (fun c1 c2 => ∃ page, server_page idOf items c1 = some page
        ∧ page.getLast?.map idOf = some c2 ∧ ∀ x ∈ page, idOf x ≤ c2)
      (fetchPagedAux idOf (server_page idOf items) (items.length + 1) 0).2
    ∧ (∀ api fuel c, fetch_groups api fuel c = fetchPagedAux Group.id api fuel c)
    ∧ (∀ api fuel c, fetch_projects api fuel c = fetchPagedAux Project.id api fuel c) := by
  have hpw0 : List.Pairwise (· < ·) (0 :: items.map idOf) :=
    List.chain'_iff_pairwise.1 hs
  rcases List.pairwise_cons.1 hpw0 with ⟨hpos, hpw⟩
  have hsorted : List.Pairwise (fun a b => idOf a < idOf b) items :=
    List.pairwise_map.1 hpw
  have hfilter : items.filter (fun x => 0 < idOf x) = items := by
    rw [List.filter_eq_self]
    intro a ha
    simpa using hpos (idOf a) (List.mem_map_of_mem idOf ha)
  have hrun := fetchPagedAux_run idOf items hsorted (items.length + 1) 0 (by
    have h1 := Nat.div_le_self (items.filter (fun x => 0 < idOf x)).length per_page
    have h2 : (items.filter (fun x => 0 < idOf x)).length ≤ items.length :=
      List.length_filter_le _ _
    omega)
  rw [hfilter] at hrun
  refine ⟨hrun.1, ?_, hrun.2.2.1, hrun.2.2.2, fun _ _ _ => rfl, fun _ _ _ => rfl⟩
  rw [hrun.2.1]
  have hpp : per_page = 100 := rfl
  rw [hpp]
  by_cases hdvd : (100 : Nat) ∣ items.length
  · rw [if_pos hdvd]
  · rw [if_neg hdvd]
    omega

/-- Witness for `c2_pagination_complete` on a concrete sorted three-item
instance. -/
theorem c2_pagination_complete_witness :
    List.Chain' (· < ·) (0 :: [mkGroup 1 0, mkGroup 2 0, mkGroup 3 0].map Group.id)
    ∧ (fetchPagedAux Group.id
        (server_page Group.id [mkGroup 1 0, mkGroup 2 0, mkGroup 3 0]) 4 0).1 =
      [mkGroup 1 0, mkGroup 2 0, mkGroup 3 0] :=
  ⟨by apply List.chain'_iff_pairwise.2; decide,
    (c2_pagination_complete Group.id [mkGroup 1 0, mkGroup 2 0, mkGroup 3 0]
      (by apply List.chain'_iff_pairwise.2; decide)).1⟩

/-- `treeSim` is transitive. -/
theorem treeSim_trans {a b c : Tree} (h1 : treeSim a b) (h2 : treeSim b c) : treeSim a c :=
  ⟨h1.1.trans h2.1, h1.2.trans h2.2⟩

/-- `forestSim` is transitive. -/
theorem forestSim_trans {a b c : List Tree} (h1 : forestSim a b) (h2 : forestSim b c) :
    forestSim a c :=
  ⟨h1.1.trans h2.1, h1.2.trans h2.2⟩

/-- `exceptRel` is transitive when the value relation is. -/
theorem exceptRel_trans {β : Type} (R : β → β → Prop)
    (hR : ∀ a b c, R a b → R b c → R a c) :
    ∀ {x y z : Except Unit β}, exceptRel R x y → exceptRel R y z → exceptRel R x z := by
  intro x y z hxy hyz
  cases x <;> cases y <;> cases z <;> simp [exceptRel] at *
  exact hR _ _ _ hxy hyz

/-- A result-relation between two per-element builders lifts pointwise to the
children loop. -/
theorem mapME_pointwise {γ : Type} (f f' : γ → Except Unit Tree) (l : List γ)
    (h : ∀ a ∈ l, exceptRel treeSim (f a) (f' a)) :
    exceptRel forestSim (mapME f l) (mapME f' l) := by
  induction l with
  | nil => simp [mapME, exceptRel, forestSim, forest_labels, forest_edges]
  | cons a l ih =>
    have ha := h a (List.mem_cons_self a l)
    have hrest := ih (fun b hb => h b (List.mem_cons_of_mem a hb))
    cases hfa : f a <;> cases hfa' : f' a <;>
      rw [hfa, hfa'] at ha <;> simp [exceptRel] at ha
    · simp [mapME, hfa, hfa', bind, Except.bind, exceptRel]
    case ok.ok t t' =>
      cases hml : mapME f l <;> cases hml' : mapME f' l <;>
        rw [hml, hml'] at hrest <;> simp [exceptRel] at hrest
      · simp [mapME, hfa, hfa', hml, hml', bind, Except.bind, exceptRel]
      case ok.ok ts ts' =>
        simp only [mapME, hfa, hfa', hml, hml', bind, Except.bind, exceptRel, pure,
          Except.pure]
        refine ⟨?_, ?_⟩
        · simp only [forestSim, forest_labels, List.map_cons] at *
          rw [ha.1]
          exact hrest.1.cons _
        · simp only [forestSim, forest_edges, List.map_cons, List.flatten_cons] at *
          exact ha.2.append hrest.2


/-- `forestSim` is reflexive. -/
theorem forestSim_refl (F : List Tree) : forestSim F F :=
  ⟨List.Perm.refl _, List.Perm.refl _⟩

/-- Running the children loop over a permuted list raises iff the original
raises, and otherwise yields a structurally identical child list. -/
theorem mapME_perm {γ : Type} (f : γ → Except Unit Tree) {l l' : List γ}
    (h : List.Perm l l') :
    exceptRel forestSim (mapME f l) (mapME f l') := by
  induction h with
  | nil => simp [mapME, exceptRel, forestSim_refl]
  | @cons x l₁ l₂ h ih =>
    cases hfx : f x
    · simp [mapME, hfx, bind, Except.bind, exceptRel]
    case ok t =>
      cases hml : mapME f l₁ <;> cases hml' : mapME f l₂ <;>
        rw [hml, hml'] at ih <;> simp [exceptRel] at ih
      · simp [mapME, hfx, hml, hml', bind, Except.bind, exceptRel]
      case ok.ok ts ts' =>
        simp only [mapME, hfx, hml, hml', bind, Except.bind, exceptRel, pure, Except.pure]
        refine ⟨?_, ?_⟩
        · simp only [forestSim, forest_labels, List.map_cons] at *
          exact ih.1.cons _
        · simp only [forestSim, forest_edges, List.map_cons, List.flatten_cons] at *
          exact ih.2.append_left _
  | @swap x y l =>
    cases hfx : f x <;> cases hfy : f y
    · simp [mapME, hfx, hfy, bind, Except.bind, exceptRel]
    · simp [mapME, hfx, hfy, bind, Except.bind, exceptRel]
    · simp [mapME, hfx, hfy, bind, Except.bind, exceptRel]
    case ok.ok tx ty =>
      cases hml : mapME f l
      · simp [mapME, hfx, hfy, hml, bind, Except.bind, exceptRel]
      case ok ts =>
        simp only [mapME, hfx, hfy, hml, bind, Except.bind, exceptRel, pure, Except.pure]
        constructor
        · simp only [forestSim, forest_labels, List.map_cons]
          exact List.Perm.swap _ _ _
        · simp only [forestSim, forest_edges, List.map_cons, List.flatten_cons]
          rw [← List.append_assoc, ← List.append_assoc]
          exact (List.perm_append_comm).append_right _
  | trans h1 h2 ih1 ih2 =>
    exact exceptRel_trans forestSim (fun _ _ _ hab hbc => forestSim_trans hab hbc) ih1 ih2


/-- The project-children filter over a permuted project list raises iff the
original raises, and otherwise yields a permuted selection. -/
theorem projectsWithNsId_perm (k : Nat) {ps ps' : List Project}
    (h : List.Perm ps ps') :
    exceptRel (fun a b => List.Perm a b) (projectsWithNsId k ps) (projectsWithNsId k ps') := by
  induction h with
  | nil => simp [projectsWithNsId, exceptRel]
  | @cons p l₁ l₂ h ih =>
    cases hns : p.ns
    · simp [projectsWithNsId, hns, exceptRel]
    case some n =>
      cases hml : projectsWithNsId k l₁ <;> cases hml' : projectsWithNsId k l₂ <;>
        rw [hml, hml'] at ih <;> simp [exceptRel] at ih
      · simp [projectsWithNsId, hns, hml, hml', bind, Except.bind, exceptRel]
      case ok.ok rest rest' =>
        simp only [projectsWithNsId, hns, hml, hml', bind, Except.bind, exceptRel, pure,
          Except.pure]
        by_cases hk : n.id = k
        · simp only [if_pos hk]
          exact ih.cons _
        · simp only [if_neg hk]
          exact ih
  | @swap p q l =>
    cases hq : q.ns <;> cases hp : p.ns
    · simp [projectsWithNsId, hq, hp, exceptRel]
    · simp [projectsWithNsId, hq, hp, bind, Except.bind, exceptRel]
    · simp [projectsWithNsId, hq, hp, bind, Except.bind, exceptRel]
    case some.some nq np =>
      cases hml : projectsWithNsId k l
      · simp [projectsWithNsId, hq, hp, hml, bind, Except.bind, exceptRel]
      case ok rest =>
        simp only [projectsWithNsId, hq, hp, hml, bind, Except.bind, exceptRel, pure,
          Except.pure]
        by_cases hkq : nq.id = k <;> by_cases hkp : np.id = k <;>
          simp only [if_pos, if_neg, hkq, hkp, ite_true, ite_false]
        · exact List.Perm.swap _ _ _
        · exact List.Perm.refl _
        · exact List.Perm.refl _
        · exact List.Perm.refl _
  | trans h1 h2 ih1 ih2 =>
    exact exceptRel_trans (fun a b => List.Perm a b)
      (fun _ _ _ hab hbc => hab.trans hbc) ih1 ih2


/-- The edges under a node, child by child. -/
theorem edgesUnder_ofList (g : Group) (l : List Tree) :
    edgesUnder g (TreeList.ofList l) =
      (l.map (fun t => (g, treeLabel t) :: treeEdges t)).flatten := by
  induction l with
  | nil => simp [TreeList.ofList, edgesUnder]
  | cons t ts ih => simp [TreeList.ofList, edgesUnder, ih]

/-- Separating the per-child head elements from the per-child tails of a
flattened map, up to permutation. -/
theorem flatten_cons_split {δ : Type} (f : Tree → δ) (m : Tree → List δ) (ts : List Tree) :
    List.Perm ((ts.map (fun t => f t :: m t)).flatten)
      (ts.map f ++ (ts.map m).flatten) := by
  induction ts with
  | nil => simp
  | cons t ts ih =>
    simp only [List.map_cons, List.flatten_cons, List.cons_append]
    refine List.Perm.cons _ ?_
    refine (ih.append_left (m t)).trans ?_
    rw [← List.append_assoc]
    refine ((List.perm_append_comm).append_right _).trans ?_
    rw [List.append_assoc]


/-- Flattening singleton lists is a plain map. -/
theorem flatten_singletons {δ ε : Type} (h : δ → ε) (l : List δ) :
    (l.map (fun x => [h x])).flatten = l.map h := by
  induction l <;> simp_all

/-- Assembling a `GroupNode` from structurally identical child lists and
permuted project leaves yields structurally identical nodes. -/
theorem node_treeSim (g : Group) (ts ts' : List Tree) (ps ps' : List Project)
    (hL : forestSim ts ts') (hp : List.Perm ps ps') :
    treeSim (Tree.node g (TreeList.ofList (ts ++ ps.map Tree.leaf)))
      (Tree.node g (TreeList.ofList (ts' ++ ps'.map Tree.leaf))) := by
  rcases hL with ⟨hL1, hL2⟩
  simp only [forest_labels] at hL1
  simp only [forest_edges] at hL2
  constructor
  · rfl
  · show List.Perm
      (treeEdges (Tree.node g (TreeList.ofList (ts ++ ps.map Tree.leaf))))
      (treeEdges (Tree.node g (TreeList.ofList (ts' ++ ps'.map Tree.leaf))))
    simp only [treeEdges]
    rw [edgesUnder_ofList, edgesUnder_ofList]
    simp only [List.map_append, List.flatten_append]
    refine List.Perm.append ?_ ?_
    · refine (flatten_cons_split _ _ ts).trans ?_
      refine List.Perm.trans ?_ (flatten_cons_split _ _ ts').symm
      refine List.Perm.append ?_ hL2
      have e1 : ts.map (fun t => (g, treeLabel t)) =
          (ts.map treeLabel).map (fun lb => (g, lb)) := by
        rw [List.map_map]; rfl
      have e2 : ts'.map (fun t => (g, treeLabel t)) =
          (ts'.map treeLabel).map (fun lb => (g, lb)) := by
        rw [List.map_map]; rfl
      rw [e1, e2]
      exact hL1.map _
    · have e3 : ∀ (qs : List Project),
          ((qs.map Tree.leaf).map (fun t => (g, treeLabel t) :: treeEdges t)).flatten =
            qs.map (fun p => (g, Sum.inr p)) := by
        intro qs
        rw [List.map_map]
        have hfn : ((fun t => (g, treeLabel t) :: treeEdges t) ∘ Tree.leaf) =
            fun p : Project => [(g, Sum.inr p)] := by
          funext p
          simp [Function.comp, treeLabel, treeEdges]
        rw [hfn, flatten_singletons]
      rw [e3, e3]
      exact hp.map _

/-- `_find_children` over permuted remaining lists: both runs raise, or both
produce trees with the same root and the same multiset of edges. -/
theorem find_children_rel {rem rem' : List Group} {projs projs' : List Project}
    (hg : List.Perm rem rem') (hp : List.Perm projs projs') :
    ∀ (fuel : Nat) (g : Group),
      exceptRel treeSim (find_children rem projs fuel g)
        (find_children rem' projs' fuel g) := by
  intro fuel
  induction fuel with
  | zero => intro g; simp [find_children, exceptRel]
  | succ fuel ih =>
    intro g
    have hgc : List.Perm (rem.filter (fun grp => grp.parent_id = g.id))
        (rem'.filter (fun grp => grp.parent_id = g.id)) := hg.filter _
    have hchain1 := mapME_pointwise (find_children rem projs fuel)
      (find_children rem' projs' fuel) (rem.filter (fun grp => grp.parent_id = g.id))
      (fun a _ => ih a)
    have hchain2 := mapME_perm (find_children rem' projs' fuel) hgc
    have hkids := exceptRel_trans forestSim
      (fun _ _ _ hab hbc => forestSim_trans hab hbc) hchain1 hchain2
    have hprj := projectsWithNsId_perm g.id hp
    cases hk1 : mapME (find_children rem projs fuel)
        (rem.filter (fun grp => grp.parent_id = g.id)) <;>
      cases hk2 : mapME (find_children rem' projs' fuel)
        (rem'.filter (fun grp => grp.parent_id = g.id)) <;>
      rw [hk1, hk2] at hkids <;> simp [exceptRel] at hkids
    · simp [find_children, hk1, hk2, bind, Except.bind, exceptRel]
    case ok.ok ts ts' =>
      cases hp1 : projectsWithNsId g.id projs <;>
        cases hp2 : projectsWithNsId g.id projs' <;>
        rw [hp1, hp2] at hprj <;> simp [exceptRel] at hprj
      · simp [find_children, hk1, hk2, hp1, hp2, bind, Except.bind, exceptRel]
      case ok.ok qs qs' =>
        simp only [find_children, hk1, hk2, hp1, hp2, bind, Except.bind, exceptRel,
          pure, Except.pure]
        exact node_treeSim g ts ts' qs qs' hkids hprj


/-- The group partition of `_construct_trees_roots` maps permuted inputs to
permuted roots and permuted remainders. -/
theorem groupRootsPass_perm {gs gs' : List Group} (h : List.Perm gs gs') :
    List.Perm (groupRootsPass gs).1 (groupRootsPass gs').1 ∧
    List.Perm (groupRootsPass gs).2 (groupRootsPass gs').2 := by
  induction h with
  | nil => exact ⟨List.Perm.refl _, List.Perm.refl _⟩
  | @cons x l₁ l₂ h ih =>
    by_cases hx : x.parent_id = 0
    · simp only [groupRootsPass, if_pos hx]
      exact ⟨ih.1.cons _, ih.2⟩
    · simp only [groupRootsPass, if_neg hx]
      exact ⟨ih.1, ih.2.cons _⟩
  | @swap x y l =>
    by_cases hx : x.parent_id = 0 <;> by_cases hy : y.parent_id = 0
    · simp only [groupRootsPass, if_pos hx, if_pos hy]
      exact ⟨List.Perm.swap _ _ _, List.Perm.refl _⟩
    · simp only [groupRootsPass, if_pos hx, if_neg hy]
      exact ⟨List.Perm.refl _, List.Perm.refl _⟩
    · simp only [groupRootsPass, if_neg hx, if_pos hy]
      exact ⟨List.Perm.refl _, List.Perm.refl _⟩
    · simp only [groupRootsPass, if_neg hx, if_neg hy]
      exact ⟨List.Perm.refl _, List.Perm.swap _ _ _⟩
  | trans h1 h2 ih1 ih2 =>
    exact ⟨ih1.1.trans ih2.1, ih1.2.trans ih2.2⟩

/-- The project partition of `_construct_trees_roots` over permuted inputs:
both runs raise (a `None` namespace), or roots and remainders are permuted. -/
theorem projectRootsPass_rel {ps ps' : List Project} (h : List.Perm ps ps') :
    exceptRel (fun r r' : List (Group ⊕ Project) × List Project =>
      List.Perm r.1 r'.1 ∧ List.Perm r.2 r'.2)
      (projectRootsPass ps) (projectRootsPass ps') := by
  induction h with
  | nil => simp [projectRootsPass, exceptRel]
  | @cons p l₁ l₂ h ih =>
    cases hns : p.ns
    · simp [projectRootsPass, hns, exceptRel]
    case some n =>
      cases hml : projectRootsPass l₁ <;> cases hml' : projectRootsPass l₂ <;>
        rw [hml, hml'] at ih <;> simp [exceptRel] at ih
      · simp [projectRootsPass, hns, hml, hml', bind, Except.bind, exceptRel]
      case ok.ok r r' =>
        simp only [projectRootsPass, hns, hml, hml', bind, Except.bind, exceptRel,
          pure, Except.pure]
        by_cases hk : n.id = 0
        · simp only [if_pos hk]
          exact ⟨ih.1.cons _, ih.2⟩
        · simp only [if_neg hk]
          exact ⟨ih.1, ih.2.cons _⟩
  | @swap p q l =>
    cases hq : q.ns <;> cases hp : p.ns
    · simp [projectRootsPass, hq, hp, exceptRel]
    · simp [projectRootsPass, hq, hp, bind, Except.bind, exceptRel]
    · simp [projectRootsPass, hq, hp, bind, Except.bind, exceptRel]
    case some.some nq np =>
      cases hml : projectRootsPass l
      · simp [projectRootsPass, hq, hp, hml, bind, Except.bind, exceptRel]
      case ok r =>
        simp only [projectRootsPass, hq, hp, hml, bind, Except.bind, exceptRel,
          pure, Except.pure]
        by_cases hkq : nq.id = 0 <;> by_cases hkp : np.id = 0 <;>
          simp only [if_pos, if_neg, hkq, hkp, ite_true, ite_false]
        · exact ⟨List.Perm.swap _ _ _, List.Perm.refl _⟩
        · exact ⟨List.Perm.refl _, List.Perm.refl _⟩
        · exact ⟨List.Perm.refl _, List.Perm.refl _⟩
        · exact ⟨List.Perm.refl _, List.Perm.swap _ _ _⟩
  | trans h1 h2 ih1 ih2 =>
    exact exceptRel_trans _
      (fun _ _ _ hab hbc => ⟨hab.1.trans hbc.1, hab.2.trans hbc.2⟩) ih1 ih2


/-- `_construct_trees_roots` over permuted inputs: both runs raise, or the
root list and both remainder lists are permuted. -/
theorem construct_trees_roots_rel {groups groups' : List Group}
    {projects projects' : List Project}
    (hg : List.Perm groups groups') (hp : List.Perm projects projects') :
    exceptRel (fun r r' : List (Group ⊕ Project) × List Group × List Project =>
      List.Perm r.1 r'.1 ∧ List.Perm r.2.1 r'.2.1 ∧ List.Perm r.2.2 r'.2.2)
      (construct_trees_roots groups projects)
      (construct_trees_roots groups' projects') := by
  have hgp := groupRootsPass_perm hg
  have hpp := projectRootsPass_rel hp
  cases h1 : projectRootsPass projects <;> cases h2 : projectRootsPass projects' <;>
    rw [h1, h2] at hpp <;> simp [exceptRel] at hpp
  · simp [construct_trees_roots, h1, h2, bind, Except.bind, exceptRel]
  case ok.ok r r' =>
    simp only [construct_trees_roots, h1, h2, bind, Except.bind, exceptRel,
      pure, Except.pure]
    exact ⟨hgp.1.append hpp.1, hgp.2, hpp.2⟩

/-- The whole tree build over permuted inputs: both runs raise, or the forests
are structurally identical. -/
theorem build_forest_rel (fuel : Nat) {groups groups' : List Group}
    {projects projects' : List Project}
    (hg : List.Perm groups groups') (hp : List.Perm projects projects') :
    exceptRel forestSim (build_forest fuel groups projects)
      (build_forest fuel groups' projects') := by
  have hc := construct_trees_roots_rel hg hp
  cases h1 : construct_trees_roots groups projects <;>
    cases h2 : construct_trees_roots groups' projects' <;>
    rw [h1, h2] at hc <;> simp [exceptRel] at hc
  · simp [build_forest, h1, h2, bind, Except.bind, exceptRel]
  case ok.ok r r' =>
    simp only [build_forest, h1, h2, bind, Except.bind]
    have hpt := mapME_pointwise (build_tree_root r.2.1 r.2.2 fuel)
      (build_tree_root r'.2.1 r'.2.2 fuel) r.1 (fun a _ => by
        cases a with
        | inl g => exact find_children_rel hc.2.1 hc.2.2 fuel g
        | inr p => simp [build_tree_root, exceptRel])
    have hpm := mapME_perm (build_tree_root r'.2.1 r'.2.2 fuel) hc.1
    exact exceptRel_trans forestSim
      (fun _ _ _ hab hbc => forestSim_trans hab hbc) hpt hpm

/-- Claim C4 (confirmed): when building the forest from any permutation of the
input Group/Project lists, the build succeeds iff the original build succeeds,
and the resulting forest is structurally identical: the same multiset of roots
and the same multiset of parent/child relationships (sibling order may
differ). -/
theorem c4_build_forest_perm_invariant (fuel : Nat)
    (groups groups' : List Group) (projects projects' : List Project)
    (hg : List.Perm groups groups') (hp : List.Perm projects projects')
    (F : List Tree) (hF : build_forest fuel groups projects = .ok F) :
    ∃ F', build_forest fuel groups' projects' = .ok F'
      ∧ List.Perm (forest_labels F) (forest_labels F')
      ∧ List.Perm (forest_edges F) (forest_edges F') := by
  have h := build_forest_rel fuel hg hp
  rw [hF] at h
  cases h2 : build_forest fuel groups' projects' <;> rw [h2] at h <;>
    simp [exceptRel, forestSim] at h
  exact ⟨_, rfl, h.1, h.2⟩

/-- Witness for `c4_build_forest_perm_invariant`: swapping a two-group list
yields a structurally identical forest. -/
theorem c4_build_forest_perm_invariant_witness :
    (List.Perm [mkGroup 1 0, mkGroup 2 1] [mkGroup 2 1, mkGroup 1 0]
      ∧ build_forest 3 [mkGroup 1 0, mkGroup 2 1] [] =
          .ok [Tree.node (mkGroup 1 0) (.cons (Tree.node (mkGroup 2 1) .nil) .nil)])
    ∧ ∃ F', build_forest 3 [mkGroup 2 1, mkGroup 1 0] [] = .ok F'
        ∧ List.Perm (forest_labels [Tree.node (mkGroup 1 0)
            (.cons (Tree.node (mkGroup 2 1) .nil) .nil)]) (forest_labels F')
        ∧ List.Perm (forest_edges [Tree.node (mkGroup 1 0)
            (.cons (Tree.node (mkGroup 2 1) .nil) .nil)]) (forest_edges F') :=
  ⟨⟨List.Perm.swap (mkGroup 2 1) (mkGroup 1 0) [], rfl⟩,
    c4_build_forest_perm_invariant 3 [mkGroup 1 0, mkGroup 2 1] [mkGroup 2 1, mkGroup 1 0]
      [] [] (List.Perm.swap (mkGroup 2 1) (mkGroup 1 0) []) (List.Perm.refl [])
      [Tree.node (mkGroup 1 0) (.cons (Tree.node (mkGroup 2 1) .nil) .nil)] rfl⟩

end GitlabCopy
